import Mathlib

/-!
Verification of the tiled-inference coordination pipeline of the
Fire-Alarm-Project-Takeoff-Assistant repository.

The development shallowly embeds the two modules the claims concern:

* `modules/pdf_processor.py` — `PDFProcessor.create_tiles` (tile grid
  generation; only tile positions matter for the geometric claims, so the
  embedding keeps `x`/`y` offsets and drops pixel payloads).
* `modules/roboflow_detector.py` — `TileCache` (an `OrderedDict`-backed LRU
  cache) and `RoboflowDetector.detect_on_tile` /
  `process_all_tiles_sequential` / `process_all_tiles_parallel`.

Python floats are embedded as rationals (ℚ), Python `int(...)` truncation as
`pyInt`, and a tile image as the string fingerprint that stands for its pixel
content (the only way the pipeline distinguishes images is by content hash and
by what the detector returns for them).  The detector itself is an external
capability; it is embedded as an explicit function argument from fingerprints
to results, with `Except` capturing a raising call.  The thread pool of the
parallel path is linearised by passing the completion order of
`as_completed` explicitly.
-/

/-- Python `int(...)` applied to a float/rational: truncation toward zero. -/
def pyInt (q : ℚ) : ℤ := if 0 ≤ q then ⌊q⌋ else -⌊-q⌋

/-- `stride = int(tile_size * (1 - overlap))` from
`PDFProcessor.create_tiles` (pdf_processor.py line 206). -/
def strideOf (tileSize : ℕ) (overlap : ℚ) : ℤ := pyInt (tileSize * (1 - overlap))

/-- Length of Python `range(0, stop, step)` for `step ≥ 1` (`stop` may be
negative, giving the empty range, as happens when the image is smaller than
the tile size). -/
def pyRangeLen (stop : ℤ) (step : ℕ) : ℕ :=
  if 0 < stop then (stop.toNat + step - 1) / step else 0

/-- Python `range(0, stop, step)`: `[0, step, 2*step, ...)`, all below `stop`. -/
def pyRange (stop : ℤ) (step : ℕ) : List ℕ :=
  (List.range (pyRangeLen stop step)).map (· * step)

/-- A tile's top-left offset in page coordinates (the `'x'`/`'y'` entries of
the tile dicts built by `create_tiles`; the tile always spans
`tile_size × tile_size` pixels from there). -/
structure TilePos where
  x : ℕ
  y : ℕ
deriving DecidableEq, Repr

/-- The tile positions produced by `PDFProcessor.create_tiles` with
`skip_blank = skip_edges = False` (no filtering), given image width `W`,
height `H`, tile size `T` and the already-computed integer stride `s`:
the main grid (`y` outer, `x` inner), then the right-edge column when
`img_width % stride != 0`, then the bottom-edge row when
`img_height % stride != 0`, then the bottom-right corner when both hold.
The final complexity sort only permutes the list and is irrelevant to the
set of rectangles. -/
def create_tiles (W H T s : ℕ) : List TilePos :=
  let xs := pyRange ((W : ℤ) - (T : ℤ) + 1) s
  let ys := pyRange ((H : ℤ) - (T : ℤ) + 1) s
  (ys.flatMap fun y => xs.map fun x => ⟨x, y⟩)
    ++ (if W % s ≠ 0 then ys.map fun y => ⟨W - T, y⟩ else [])
    ++ (if H % s ≠ 0 then xs.map fun x => ⟨x, H - T⟩ else [])
    ++ (if W % s ≠ 0 ∧ H % s ≠ 0 then [⟨W - T, H - T⟩] else [])

/-- A point `(px, py)` lies inside the `T × T` tile at position `t`. -/
def coversPoint (T : ℕ) (t : TilePos) (px py : ℕ) : Prop :=
  t.x ≤ px ∧ px < t.x + T ∧ t.y ≤ py ∧ py < t.y + T

instance (T : ℕ) (t : TilePos) (px py : ℕ) : Decidable (coversPoint T t px py) := by
  unfold coversPoint; infer_instance

/-- Association-list lookup, front to back (dict membership `k in d` /
`d[k]`).  The cache lists built below always have distinct keys, mirroring a
Python `OrderedDict`; the list order is the recency order, least recently
used first. -/
def lookupKey {V : Type} (k : String) : List (String × V) → Option V
  | [] => none
  | (k', v) :: rest => if k' = k then some v else lookupKey k rest

/-- Remove the entry for key `k` (used to embed `OrderedDict.move_to_end`,
which relocates the unique entry for `k` to the back). -/
def eraseKey {V : Type} (k : String) : List (String × V) → List (String × V)
  | [] => []
  | (k', v) :: rest => if k' = k then eraseKey k rest else (k', v) :: eraseKey k rest

/-- `TileCache` from roboflow_detector.py: an `OrderedDict` (embedded as an
assoc list in recency order, LRU at the front), the configured maximum size
and the hit/miss counters.  The value type is a parameter: the pipeline
stores detector result payloads, and the aliasing analysis stores heap
addresses. -/
structure TileCache (V : Type) where
  cache : List (String × V)
  maxSize : ℕ
  hits : ℕ
  misses : ℕ

/-- A fresh `TileCache(max_size = n)`. -/
def emptyCache (V : Type) (n : ℕ) : TileCache V := ⟨[], n, 0, 0⟩

/-- `TileCache.get`: on a hit increment `hits`, `move_to_end` the entry and
return the stored value; on a miss increment `misses` and return `None`. -/
def TileCache.get {V : Type} (c : TileCache V) (k : String) : Option V × TileCache V :=
  match lookupKey k c.cache with
  | some v => (some v, { c with hits := c.hits + 1, cache := eraseKey k c.cache ++ [(k, v)] })
  | none => (none, { c with misses := c.misses + 1 })

/-- `TileCache.set`: store/overwrite the entry, `move_to_end` it, then if the
size exceeds `max_size` pop the least-recently-used entry (the front). -/
def TileCache.set {V : Type} (c : TileCache V) (k : String) (v : V) : TileCache V :=
  let l := eraseKey k c.cache ++ [(k, v)]
  { c with cache := if c.maxSize < l.length then l.tail else l }

/-- The dict returned by `TileCache.get_stats`. -/
structure CacheStats where
  hits : ℕ
  misses : ℕ
  total : ℕ
  hitRate : ℚ
  size : ℕ
deriving Repr

/-- `TileCache.get_stats`: `hit_rate = (hits / total * 100) if total > 0 else 0`,
`size = len(self.cache)`. -/
def TileCache.get_stats {V : Type} (c : TileCache V) : CacheStats :=
  let total := c.hits + c.misses
  { hits := c.hits
    misses := c.misses
    total := total
    hitRate := if 0 < total then (c.hits : ℚ) / (total : ℚ) * 100 else 0
    size := c.cache.length }

/-- Fold `TileCache.set` over a list of fingerprints (inserting the same
payload under each), left to right — the insertion scenarios of the cache
claims. -/
def setAll {V : Type} (c : TileCache V) (ks : List String) (v : V) : TileCache V :=
  ks.foldl (fun c k => c.set k v) c

/-- A tile-local detection as decoded from the Roboflow JSON: the `'x'`,
`'y'`, `'width'`, `'height'` entries of one prediction dict (floats embedded
as ℚ; the class/confidence fields play no role in any claim). -/
structure Detection where
  x : ℚ
  y : ℚ
  width : ℚ
  height : ℚ

/-- A page-global detection after coordinate remapping, carrying the
`'tile_id'` tag added by the orchestrators. -/
structure GlobalDetection where
  x : ℚ
  y : ℚ
  width : ℚ
  height : ℚ
  tileId : ℕ

/-- A tile dict as consumed by the orchestrators: `'id'`, `'image'`
(represented by its content fingerprint — the only observable the pipeline
uses), and the page offsets `'x'`, `'y'`. -/
structure Tile where
  id : ℕ
  hash : String
  x : ℚ
  y : ℚ

/-- A detector result: `predictions.json()`.  `some ps` is a dict holding a
`'predictions'` list; `none` is a truthy-or-falsy dict without usable
predictions (both are skipped identically by
`if predictions and 'predictions' in predictions`). -/
abbrev RFResult := Option (List Detection)

/-- The external Roboflow call `self.model.predict(...).json()` for a tile of
given content fingerprint: either a result or a raised exception. -/
abbrev DetectorFn := String → Except Unit RFResult

/-- `RoboflowDetector.detect_on_tile`: consult the cache first when
`use_cache`; on a miss (or with caching off) run the detector, cache any
successful result (whatever its content), and return `None` when the call
raised.  Returns the result (`none` = Python `None`) and the updated cache. -/
def detect_on_tile (d : DetectorFn) (c : TileCache RFResult) (h : String)
    (useCache : Bool) : Option RFResult × TileCache RFResult :=
  if useCache then
    match c.get h with
    | (some r, c') => (some r, c')
    | (none, c') =>
      match d h with
      | .ok result => (some result, c'.set h result)
      | .error _ => (none, c')
  else
    match d h with
    | .ok result => (some result, c)
    | .error _ => (none, c)

/-- Sequential remapping (`process_all_tiles_sequential` lines 316–319):
`pred['x'] += tile['x']; pred['y'] += tile['y']; pred['tile_id'] = tile['id']`,
width and height untouched. -/
def remapSeq (t : Tile) (p : Detection) : GlobalDetection :=
  { x := p.x + t.x, y := p.y + t.y, width := p.width, height := p.height, tileId := t.id }

/-- The parallel path's box scale factor (`scale_factor = 1.0`). -/
def scaleFactor : ℚ := 1

/-- Parallel remapping (`process_all_tiles_parallel` lines 241–259):
`pred['x'] = tile['x'] + tile_center_x`, likewise for `y`, and
`pred['width'] = max(20, int(tile_width * scale_factor))`, likewise for the
height. -/
def remapPar (t : Tile) (p : Detection) : GlobalDetection :=
  { x := t.x + p.x
    y := t.y + p.y
    width := ((max 20 (pyInt (p.width * scaleFactor)) : ℤ) : ℚ)
    height := ((max 20 (pyInt (p.height * scaleFactor)) : ℤ) : ℚ)
    tileId := t.id }

/-- `early_stop_count and len(all_detections) >= early_stop_count`
(`None` and `0` are falsy). -/
def escTriggered (esc : Option ℕ) (n : ℕ) : Bool :=
  match esc with
  | some k => decide (k ≠ 0) && decide (k ≤ n)
  | none => false

/-- The per-run statistics both orchestrators return (wall-clock time
omitted: untranslatable and claimed by nothing). -/
structure RunStats where
  processed : ℕ
  earlyStopped : Bool
  objectsFound : ℕ
  cacheHits : ℕ
  cacheMisses : ℕ

/-- `if predictions and 'predictions' in predictions: for pred in ...: append`
— extend the accumulated detections with the remapped predictions of one tile
result (`f` is the path's per-prediction remapping). -/
def collectPreds (r : Option RFResult) (f : Detection → GlobalDetection)
    (acc : List GlobalDetection) : List GlobalDetection :=
  match r with
  | some (some ps) => acc ++ ps.map f
  | _ => acc

/-- The orchestrator consumption loop shared (up to the per-prediction
remapping `remapFn`) by `process_all_tiles_sequential` and the
`as_completed` loop of `process_all_tiles_parallel`: for each tile run
`detect_on_tile`, count it as processed, append the remapped predictions
when the result is a dict with a `'predictions'` list, and break once the
early-stop condition fires.  Returns (detections, tiles consumed,
early_stopped flag, final cache). -/
def orchGo (remapFn : Tile → Detection → GlobalDetection) (d : DetectorFn)
    (u : Bool) (esc : Option ℕ) :
    List Tile → TileCache RFResult → List GlobalDetection →
    List GlobalDetection × ℕ × Bool × TileCache RFResult
  | [], c, acc => (acc, 0, false, c)
  | t :: rest, c, acc =>
    let r := detect_on_tile d c t.hash u
    let acc' := collectPreds r.1 (remapFn t) acc
    if escTriggered esc acc'.length then (acc', 1, true, r.2)
    else
      let out := orchGo remapFn d u esc rest r.2 acc'
      (out.1, out.2.1 + 1, out.2.2)

/-- The sequential orchestrator loop (`for tile in tiles:` with `remapSeq`). -/
def seqGo : DetectorFn → Bool → Option ℕ →
    List Tile → TileCache RFResult → List GlobalDetection →
    List GlobalDetection × ℕ × Bool × TileCache RFResult := orchGo remapSeq

/-- `RoboflowDetector.process_all_tiles_sequential`. -/
def process_all_tiles_sequential (d : DetectorFn) (c : TileCache RFResult)
    (tiles : List Tile) (useCache : Bool) (esc : Option ℕ) :
    List GlobalDetection × RunStats × TileCache RFResult :=
  let out := seqGo d useCache esc tiles c []
  (out.1,
   { processed := out.2.1
     earlyStopped := out.2.2.1
     objectsFound := out.1.length
     cacheHits := out.2.2.2.hits
     cacheMisses := out.2.2.2.misses },
   out.2.2.2)

/-- The parallel orchestrator's consumption loop over the `as_completed`
order, with the parallel path's remapping and early-stop `break` (future
cancellation only prunes the same traversal).  Detector calls are linearised
at consumption against the shared cache. -/
def parGo : DetectorFn → Bool → Option ℕ →
    List Tile → TileCache RFResult → List GlobalDetection →
    List GlobalDetection × ℕ × Bool × TileCache RFResult := orchGo remapPar

/-- `RoboflowDetector.process_all_tiles_parallel`, parameterised by the
completion order in which `as_completed` yields the futures. -/
def process_all_tiles_parallel (d : DetectorFn) (c : TileCache RFResult)
    (completionOrder : List Tile) (useCache : Bool) (esc : Option ℕ) :
    List GlobalDetection × RunStats × TileCache RFResult :=
  let out := parGo d useCache esc completionOrder c []
  (out.1,
   { processed := out.2.1
     earlyStopped := out.2.2.1
     objectsFound := out.1.length
     cacheHits := out.2.2.2.hits
     cacheMisses := out.2.2.2.misses },
   out.2.2.2)

/-- A mutable heap of prediction dict objects, for the reference-semantics
analysis of the cache: Python dicts are heap objects and
`TileCache.get` returns `self.cache[tile_hash]` itself, not a copy, so the
cached payload is embedded as the list of heap addresses of its prediction
dicts. -/
abbrev PredHeap := List (ℕ × Detection)

/-- Read the prediction dict at address `a`. -/
def heapGet (σ : PredHeap) (a : ℕ) : Option Detection :=
  match σ with
  | [] => none
  | (a', p) :: rest => if a' = a then some p else heapGet rest a

/-- Overwrite the prediction dict at address `a` (in-place dict mutation). -/
def heapSet (σ : PredHeap) (a : ℕ) (p : Detection) : PredHeap :=
  σ.map fun e => if e.1 = a then (a, p) else e

/-- The sequential orchestrator's in-place remapping applied through a
reference: `pred['x'] += tile['x']; pred['y'] += tile['y']` on the dict at
address `a`. -/
def remapInPlace (σ : PredHeap) (a : ℕ) (tx ty : ℚ) : PredHeap :=
  match heapGet σ a with
  | some p => heapSet σ a { p with x := p.x + tx, y := p.y + ty }
  | none => σ

/-- What a caller observes from a `TileCache.get` hit under reference
semantics: the prediction dicts currently on the heap at the stored
addresses. -/
def observeCached (σ : PredHeap) (c : TileCache (List ℕ)) (k : String) :
    Option (List Detection) :=
  (c.get k).1.map fun addrs => addrs.filterMap (heapGet σ)

/-- Concrete scenario data: the detector's tile-local prediction stored in
the cache — `{'x': 5, 'y': 6, 'width': 30, 'height': 40}`. -/
def predStored : Detection := ⟨5, 6, 30, 40⟩

/-- Scenario heap: the single prediction dict lives at address `0`. -/
def heap0 : PredHeap := [(0, predStored)]

/-- Scenario cache: fingerprint `"h"` maps to the result whose predictions
list references address `0` (what `detect_on_tile` left behind after a
successful call). -/
def cacheRef0 : TileCache (List ℕ) := (emptyCache (List ℕ) 1000).set "h" [0]

/-- Concrete single-tile scenario for the remapping claims: tile 0 at page
offset `(100, 200)`. -/
def tileA : Tile := ⟨0, "tA", 100, 200⟩

/-- Detector stub: one prediction centred at `(5, 6)` of size `10 × 12`. -/
def detOne : DetectorFn := fun _ => .ok (some [⟨5, 6, 10, 12⟩])

/-- Detector stub whose call succeeds with an empty predictions list. -/
def detEmpty : DetectorFn := fun _ => .ok (some [])

/-- Detector stub whose call always raises. -/
def detFail : DetectorFn := fun _ => .error ()

/-! ### Association-list lemmas for the cache proofs -/

theorem lookupKey_append {V : Type} (k : String) (l₁ l₂ : List (String × V)) :
    lookupKey k (l₁ ++ l₂)
      = match lookupKey k l₁ with
        | some v => some v
        | none => lookupKey k l₂ := by
  induction l₁ with
  | nil => simp [lookupKey]
  | cons e rest ih =>
    obtain ⟨k', v⟩ := e
    by_cases hk : k' = k <;> simp [lookupKey, hk, ih]

theorem lookupKey_mapConst {V : Type} (k : String) (v : V) (ks : List String) :
    lookupKey k (ks.map fun k' => (k', v)) = if k ∈ ks then some v else none := by
  induction ks with
  | nil => simp [lookupKey]
  | cons k' rest ih =>
    by_cases hk : k' = k
    · subst hk; simp [lookupKey]
    · simp [lookupKey, hk, ih, Ne.symm hk]

theorem eraseKey_of_lookup_none {V : Type} (k : String) (l : List (String × V))
    (h : lookupKey k l = none) : eraseKey k l = l := by
  induction l with
  | nil => rfl
  | cons e rest ih =>
    obtain ⟨k', v⟩ := e
    by_cases hk : k' = k
    · simp [lookupKey, hk] at h
    · simp only [lookupKey, hk, if_neg] at h
      simp [eraseKey, hk, ih h]

theorem lookupKey_eraseKey_self {V : Type} (k : String) (l : List (String × V)) :
    lookupKey k (eraseKey k l) = none := by
  induction l with
  | nil => rfl
  | cons e rest ih =>
    obtain ⟨k', v⟩ := e
    by_cases hk : k' = k <;> simp [eraseKey, lookupKey, hk, ih]

theorem eraseKey_length_le {V : Type} (k : String) (l : List (String × V)) :
    (eraseKey k l).length ≤ l.length := by
  induction l with
  | nil => simp [eraseKey]
  | cons e rest ih =>
    obtain ⟨k', v⟩ := e
    simp only [eraseKey]
    by_cases hk : k' = k
    · rw [if_pos hk]
      exact ih.trans (Nat.le_succ _)
    · rw [if_neg hk]
      simp only [List.length_cons]
      exact Nat.succ_le_succ ih

/-! ### C10 — cache statistics -/

/-- C10: `TileCache.get_stats` never divides by zero: with `hits + misses = 0`
it reports `hit_rate = 0`, otherwise `hit_rate = hits / (hits + misses) * 100`,
and the reported `size` equals the current number of cached entries. -/
theorem get_stats_safe {V : Type} (c : TileCache V) :
    (c.hits + c.misses = 0 → (TileCache.get_stats c).hitRate = 0) ∧
    (0 < c.hits + c.misses →
      (TileCache.get_stats c).hitRate
        = (c.hits : ℚ) / ((c.hits : ℚ) + (c.misses : ℚ)) * 100) ∧
    (TileCache.get_stats c).size = c.cache.length := by
  refine ⟨fun h => ?_, fun h => ?_, rfl⟩
  · simp [TileCache.get_stats, h]
  · simp only [TileCache.get_stats, if_pos h]
    push_cast
    ring

theorem get_stats_safe_witness :
    (TileCache.get_stats (emptyCache ℕ 5)).hitRate = 0 :=
  (get_stats_safe (emptyCache ℕ 5)).1 rfl

/-! ### C7 — stride computation -/

/-- C7 counterexample: with `tile_size = 1` and `overlap = 1/2` (a tile size
`≥ 1` and an overlap inside `[0, 1)`) the stride `int(1 * (1 - 0.5))`
computed by `create_tiles` is `0`, not `≥ 1`. -/
theorem stride_zero_counterexample :
    (0 : ℚ) ≤ 1/2 ∧ (1/2 : ℚ) < 1 ∧ 1 ≤ (1 : ℕ) ∧
    strideOf 1 (1/2) = 0 ∧ ¬ (1 ≤ strideOf 1 (1/2)) := by
  have h : strideOf 1 (1/2) = 0 := by
    rw [strideOf, pyInt]
    norm_num
  refine ⟨by norm_num, by norm_num, le_refl 1, h, ?_⟩
  rw [h]
  norm_num

/-- C7 amended: the stride equals `tile_size * (1 - overlap)` truncated to an
integer, and it is `≥ 1` exactly when `tile_size * (1 - overlap) ≥ 1` — for
configurations with `tile_size * (1 - overlap) < 1` the stride is `0` and the
tiling loops' step is ill-defined. -/
theorem stride_trunc_amended (T : ℕ) (f : ℚ) (h0 : 0 ≤ f) (h1 : f < 1) :
    strideOf T f = ⌊(T : ℚ) * (1 - f)⌋ ∧
    (1 ≤ strideOf T f ↔ 1 ≤ (T : ℚ) * (1 - f)) := by
  have hq : 0 ≤ (T : ℚ) * (1 - f) :=
    mul_nonneg (Nat.cast_nonneg T) (by linarith)
  have he : strideOf T f = ⌊(T : ℚ) * (1 - f)⌋ := by
    rw [strideOf, pyInt, if_pos hq]
  refine ⟨he, ?_⟩
  rw [he, Int.le_floor]
  norm_num

theorem stride_trunc_amended_witness :
    strideOf 640 (1/4) = ⌊(640 : ℚ) * (1 - 1/4)⌋ ∧
    (1 ≤ strideOf 640 (1/4) ↔ 1 ≤ (640 : ℚ) * (1 - 1/4)) :=
  stride_trunc_amended 640 (1/4) (by norm_num) (by norm_num)

/-! ### C1 — tiling coverage -/

/-- C1: at image width = height = 8, tile size 3, overlap 1/3 (a valid
configuration: stride `int(3 * (1 - 1/3)) = 2 ≥ 1`, tile fits the image),
every generated tile lies in bounds but the point `(7, 7)` of the
`[0,8) × [0,8)` rectangle is covered by no generated tile: the edge-tile
guard `img_width % stride != 0` is false (`8 % 2 == 0`) although the grid
stops at offset `4 < 8 - 3`, so no flush right-edge column or bottom-edge row
is emitted and the one-pixel strip at the far edges stays uncovered. -/
theorem create_tiles_coverage_gap :
    (0 : ℚ) ≤ 1/3 ∧ (1/3 : ℚ) < 1 ∧ strideOf 3 (1/3) = 2 ∧
    (∀ t ∈ create_tiles 8 8 3 2, t.x ≤ 8 - 3 ∧ t.y ≤ 8 - 3) ∧
    ¬ ∃ t ∈ create_tiles 8 8 3 2, coversPoint 3 t 7 7 := by
  refine ⟨by norm_num, by norm_num, ?_, by decide, by decide⟩
  rw [strideOf, pyInt]
  norm_num

/-! ### C2 — cache returns references, not copies -/

/-- C2: `TileCache.get` returns the stored payload by reference
(`return self.cache[tile_hash]`, no copy).  After the sequential
orchestrator's in-place remap (`pred['x'] += tile['x']` with tile offset
`(10, 20)`), a second `get` of the same fingerprint observes the remapped
dict `(15, 26, ...)`, not the originally stored tile-local `(5, 6, ...)`. -/
theorem cache_get_aliasing :
    observeCached heap0 cacheRef0 "h" = some [predStored] ∧
    observeCached (remapInPlace heap0 0 10 20) (cacheRef0.get "h").2 "h"
      = some [{ predStored with x := predStored.x + 10, y := predStored.y + 20 }] ∧
    ({ predStored with x := predStored.x + 10, y := predStored.y + 20 } : Detection)
      ≠ predStored := by
  refine ⟨rfl, rfl, ?_⟩
  simp [predStored]

theorem lookupKey_none_tail {V : Type} (k : String) (l : List (String × V))
    (h : lookupKey k l = none) : lookupKey k l.tail = none := by
  cases l with
  | nil => rfl
  | cons e rest =>
    obtain ⟨k', v⟩ := e
    by_cases hk : k' = k
    · simp [lookupKey, hk] at h
    · simp only [lookupKey, hk, if_neg] at h
      simpa using h

/-! ### C5 — what gets cached -/

/-- C5 counterexample: a successful detector call whose response holds an
empty `'predictions'` list is still inserted into the cache by
`detect_on_tile` — the code performs no non-emptiness validation before
`self.cache.set(tile_hash, result)`. -/
theorem detect_on_tile_caches_empty :
    lookupKey "h" ((detect_on_tile detEmpty (emptyCache RFResult 10) "h" true).2).cache
      = some (some []) ∧ ([] : List Detection).length = 0 :=
  ⟨rfl, rfl⟩

/-- C5 amended: `detect_on_tile` inserts into the cache exactly when caching
is enabled, the fingerprint missed, and the detector call succeeded; the
successful response is then cached whatever its content (empty predictions
included), and with a positive `max_size` the entry is present afterwards.  A
failed detector call never inserts anything (the entry list is unchanged), and
with caching disabled the cache is never touched. -/
theorem detect_on_tile_cache_discipline (d : DetectorFn) (c : TileCache RFResult)
    (h : String) :
    (∀ u, lookupKey h c.cache = none → d h = .error () →
      (detect_on_tile d c h u).1 = none ∧
      ((detect_on_tile d c h u).2).cache = c.cache) ∧
    (∀ r, d h = .ok r → lookupKey h c.cache = none → 0 < c.maxSize →
      (detect_on_tile d c h true).1 = some r ∧
      lookupKey h ((detect_on_tile d c h true).2).cache = some r) ∧
    (∀ r, d h = .ok r → (detect_on_tile d c h false).2 = c) := by
  refine ⟨fun u hmiss herr => ?_, fun r hok hmiss hsz => ?_, fun r hok => ?_⟩
  · cases u
    · simp [detect_on_tile, herr]
    · simp [detect_on_tile, TileCache.get, hmiss, herr]
  · simp only [detect_on_tile, TileCache.get, hmiss, hok, if_pos]
    refine ⟨trivial, ?_⟩
    simp only [TileCache.set]
    by_cases hpop : c.maxSize < (eraseKey h c.cache ++ [(h, r)]).length
    · rw [if_pos hpop]
      cases hcc : eraseKey h c.cache with
      | nil =>
        rw [hcc] at hpop
        simp at hpop
        omega
      | cons e es =>
        simp only [List.cons_append, List.tail_cons]
        rw [lookupKey_append]
        have hes : lookupKey h es = none := by
          have := lookupKey_eraseKey_self h c.cache
          rw [hcc] at this
          exact lookupKey_none_tail h (e :: es) this
        rw [hes]
        simp [lookupKey]
    · rw [if_neg hpop]
      rw [lookupKey_append, lookupKey_eraseKey_self]
      simp [lookupKey]
  · simp [detect_on_tile, hok]

theorem detect_on_tile_cache_discipline_witness :
    (detect_on_tile detFail (emptyCache RFResult 10) "h" true).1 = none ∧
    ((detect_on_tile detFail (emptyCache RFResult 10) "h" true).2).cache
      = (emptyCache RFResult 10).cache :=
  (detect_on_tile_cache_discipline detFail (emptyCache RFResult 10) "h").1 true rfl rfl


/-! ### C4 — LRU bound and eviction order -/

theorem set_maxSize {V : Type} (c : TileCache V) (k : String) (v : V) :
    (c.set k v).maxSize = c.maxSize := rfl

theorem eraseKey_cons_self {V : Type} (k : String) (v : V) (l : List (String × V)) :
    eraseKey k ((k, v) :: l) = eraseKey k l := by
  simp [eraseKey]

theorem lookupKey_mapConst_of_mem {V : Type} {k : String} {ks : List String} (v : V)
    (h : k ∈ ks) : lookupKey k (ks.map fun k' => (k', v)) = some v := by
  rw [lookupKey_mapConst]
  exact if_pos h

theorem lookupKey_mapConst_of_not_mem {V : Type} {k : String} {ks : List String} (v : V)
    (h : k ∉ ks) : lookupKey k (ks.map fun k' => (k', v)) = none := by
  rw [lookupKey_mapConst]
  exact if_neg h

theorem eraseKey_mapConst_of_not_mem {V : Type} {k : String} {ks : List String} (v : V)
    (h : k ∉ ks) : eraseKey k (ks.map fun k' => (k', v)) = ks.map fun k' => (k', v) :=
  eraseKey_of_lookup_none k _ (lookupKey_mapConst_of_not_mem v h)

theorem setAll_fill {V : Type} (v : V) :
    ∀ (ks : List String) (c : TileCache V), ks.Nodup →
      (∀ k ∈ ks, lookupKey k c.cache = none) →
      c.cache.length + ks.length ≤ c.maxSize →
      (setAll c ks v).cache = c.cache ++ ks.map (fun k => (k, v)) ∧
      (setAll c ks v).maxSize = c.maxSize := by
  intro ks
  induction ks with
  | nil =>
    intro c _ _ _
    exact ⟨by simp [setAll], rfl⟩
  | cons k rest ih =>
    intro c hnd hnone hlen
    simp only [List.length_cons] at hlen
    have hmiss : lookupKey k c.cache = none := hnone k (List.mem_cons_self k rest)
    have hset : (c.set k v).cache = c.cache ++ [(k, v)] := by
      simp only [TileCache.set]
      rw [eraseKey_of_lookup_none k c.cache hmiss, if_neg]
      simp only [List.length_append, List.length_cons, List.length_nil]
      omega
    have hndk : k ∉ rest := (List.nodup_cons.mp hnd).1
    have h1 := ih (c.set k v) (List.nodup_cons.mp hnd).2
      (fun k' hk' => by
        rw [hset, lookupKey_append, hnone k' (List.mem_cons_of_mem k hk')]
        have hne : ¬ (k = k') := fun he => hndk (he ▸ hk')
        simp [lookupKey, hne])
      (by
        rw [hset, set_maxSize]
        simp only [List.length_append, List.length_cons, List.length_nil]
        omega)
    constructor
    · show (setAll (c.set k v) rest v).cache = _
      rw [h1.1, hset]
      simp
    · show (setAll (c.set k v) rest v).maxSize = _
      rw [h1.2, set_maxSize]

/-- C4: (i) `TileCache.set` keeps the cache within `max_size` whenever it was
within bound before; (ii) inserting `max_size + 1` distinct fingerprints into
a fresh cache leaves exactly the first-inserted fingerprint absent and all
the others present; (iii) a `get` of the least-recently-used entry before the
overflowing insertion protects it — the next-least-recently-used, untouched
entry (`b`) is evicted instead. -/
theorem tile_cache_lru (V : Type) :
    (∀ (c : TileCache V) (k : String) (v : V),
      c.cache.length ≤ c.maxSize → (c.set k v).cache.length ≤ c.maxSize) ∧
    (∀ (n : ℕ) (v : V) (k₀ : String) (rest : List String) (klast : String),
      (k₀ :: (rest ++ [klast])).Nodup → (k₀ :: rest).length = n →
      lookupKey k₀ (setAll (emptyCache V n) (k₀ :: (rest ++ [klast])) v).cache = none ∧
      ∀ k ∈ rest ++ [klast],
        lookupKey k (setAll (emptyCache V n) (k₀ :: (rest ++ [klast])) v).cache = some v) ∧
    (∀ (n : ℕ) (v : V) (a b : String) (rest : List String) (knew : String),
      (a :: b :: rest).Nodup → knew ∉ a :: b :: rest → (a :: b :: rest).length = n →
      lookupKey a ((((setAll (emptyCache V n) (a :: b :: rest) v).get a).2.set knew v).cache)
        = some v ∧
      lookupKey b ((((setAll (emptyCache V n) (a :: b :: rest) v).get a).2.set knew v).cache)
        = none ∧
      lookupKey knew ((((setAll (emptyCache V n) (a :: b :: rest) v).get a).2.set knew v).cache)
        = some v) := by
  refine ⟨fun c k v hle => ?_, fun n v k₀ rest klast hnd hn => ?_, ?_⟩
  · simp only [TileCache.set]
    by_cases hpop : c.maxSize < (eraseKey k c.cache ++ [(k, v)]).length
    · rw [if_pos hpop]
      have h1 := eraseKey_length_le k c.cache
      simp only [List.length_tail, List.length_append, List.length_cons,
        List.length_nil] at *
      omega
    · rw [if_neg hpop]
      omega
  · -- part (ii): fill with k₀ :: rest, then the overflowing insert of klast
    simp only [List.length_cons] at hn
    have hnd1 := List.nodup_cons.mp hnd
    have hk₀ : k₀ ∉ rest ++ [klast] := hnd1.1
    have hrest_nd : rest.Nodup := (List.nodup_append.mp hnd1.2).1
    have hdisj := (List.nodup_append.mp hnd1.2).2.2
    have hklast_rest : klast ∉ rest := fun hm => hdisj hm (List.mem_singleton_self klast)
    have hk₀rest : k₀ ∉ rest := fun hm => hk₀ (List.mem_append_left _ hm)
    have hk₀klast : k₀ ≠ klast := fun he => hk₀ (by
      rw [he]
      exact List.mem_append_right _ (List.mem_singleton_self klast))
    have hnd' : (k₀ :: rest).Nodup := List.nodup_cons.mpr ⟨hk₀rest, hrest_nd⟩
    have hklast : klast ∉ k₀ :: rest := by
      intro hm
      rcases List.mem_cons.mp hm with he | hm'
      · exact hk₀klast he.symm
      · exact hklast_rest hm'
    have hfill := setAll_fill v (k₀ :: rest) (emptyCache V n) hnd'
      (fun k _ => rfl) (by simp [emptyCache]; omega)
    have hc0 : (setAll (emptyCache V n) (k₀ :: rest) v).cache
        = (k₀ :: rest).map (fun k => (k, v)) := by
      rw [hfill.1]
      rfl
    have hsplit : setAll (emptyCache V n) (k₀ :: (rest ++ [klast])) v
        = (setAll (emptyCache V n) (k₀ :: rest) v).set klast v := by
      show List.foldl _ _ ((k₀ :: rest) ++ [klast]) = _
      rw [List.foldl_append]
      rfl
    have hcache : ((setAll (emptyCache V n) (k₀ :: rest) v).set klast v).cache
        = (rest ++ [klast]).map (fun k => (k, v)) := by
      simp only [TileCache.set]
      rw [hc0, eraseKey_mapConst_of_not_mem v hklast, hfill.2, if_pos]
      · rw [List.map_append, List.map_cons]
        rfl
      · simp only [emptyCache, List.length_append, List.length_map, List.length_cons,
          List.length_nil]
        omega
    rw [hsplit, hcache]
    constructor
    · exact lookupKey_mapConst_of_not_mem v hk₀
    · exact fun k hk => lookupKey_mapConst_of_mem v hk
  · -- part (iii): fill with a :: b :: rest, touch a via get, insert knew
    intro n v a b rest knew hnd hknew hn
    simp only [List.length_cons] at hn
    simp only [List.mem_cons, not_or] at hknew
    obtain ⟨hka, hkb, hkrest⟩ := hknew
    have hnd1 := List.nodup_cons.mp hnd
    have hab : a ≠ b := fun he => hnd1.1 (he ▸ List.mem_cons_self b rest)
    have harest : a ∉ rest := fun hm => hnd1.1 (List.mem_cons_of_mem b hm)
    have hbrest : b ∉ rest := (List.nodup_cons.mp hnd1.2).1
    have habrest : a ∉ b :: rest := hnd1.1
    have hfill := setAll_fill v (a :: b :: rest) (emptyCache V n) hnd
      (fun k _ => rfl) (by simp [emptyCache]; omega)
    have hc0 : (setAll (emptyCache V n) (a :: b :: rest) v).cache
        = (a :: b :: rest).map (fun k => (k, v)) := by
      rw [hfill.1]
      rfl
    have hlooka : lookupKey a ((setAll (emptyCache V n) (a :: b :: rest) v).cache)
        = some v := by
      rw [hc0]
      exact lookupKey_mapConst_of_mem v (List.mem_cons_self a (b :: rest))
    have hget : (((setAll (emptyCache V n) (a :: b :: rest) v).get a).2).cache
        = ((b :: rest) ++ [a]).map (fun k => (k, v)) := by
      simp only [TileCache.get, hlooka]
      rw [hc0, List.map_append, List.map_cons]
      rw [show ((a, v) :: (b :: rest).map (fun k => (k, v)))
          = ((a :: b :: rest).map fun k => (k, v)) from rfl]
      rw [show ((a :: b :: rest).map fun k => (k, v))
          = ((a, v) :: ((b :: rest).map fun k => (k, v))) from rfl,
        eraseKey_cons_self, eraseKey_mapConst_of_not_mem v habrest]
      rfl
    have hgetmax : (((setAll (emptyCache V n) (a :: b :: rest) v).get a).2).maxSize = n := by
      simp only [TileCache.get, hlooka]
      exact hfill.2
    have hknotin : knew ∉ (b :: rest) ++ [a] := by
      intro hm
      rcases List.mem_append.mp hm with hm' | hm'
      · rcases List.mem_cons.mp hm' with he | hm''
        · exact hkb he
        · exact hkrest hm''
      · exact hka (List.mem_singleton.mp hm')
    have hset2 : ((((setAll (emptyCache V n) (a :: b :: rest) v).get a).2).set knew v).cache
        = ((rest ++ [a]) ++ [knew]).map (fun k => (k, v)) := by
      simp only [TileCache.set]
      rw [hget, eraseKey_mapConst_of_not_mem v hknotin, hgetmax, if_pos]
      · simp [List.map_append, List.append_assoc]
      · simp only [List.length_append, List.length_map, List.length_cons,
          List.length_nil]
        omega
    rw [hset2]
    refine ⟨?_, ?_, ?_⟩
    · exact lookupKey_mapConst_of_mem v
        (List.mem_append_left _ (List.mem_append_right _ (List.mem_singleton_self a)))
    · apply lookupKey_mapConst_of_not_mem
      intro hm
      rcases List.mem_append.mp hm with hm' | hm'
      · rcases List.mem_append.mp hm' with hm'' | hm''
        · exact hbrest hm''
        · exact hab (List.mem_singleton.mp hm'').symm
      · exact hkb (List.mem_singleton.mp hm').symm
    · exact lookupKey_mapConst_of_mem v
        (List.mem_append_right _ (List.mem_singleton_self knew))

theorem tile_cache_lru_witness :
    lookupKey "k0" (setAll (emptyCache ℕ 2) ("k0" :: (["k1"] ++ ["k2"])) 7).cache = none ∧
    lookupKey "k1" (setAll (emptyCache ℕ 2) ("k0" :: (["k1"] ++ ["k2"])) 7).cache = some 7 ∧
    lookupKey "a" ((((setAll (emptyCache ℕ 2) ("a" :: "b" :: []) 7).get "a").2.set "c" 7).cache)
      = some 7 ∧
    lookupKey "b" ((((setAll (emptyCache ℕ 2) ("a" :: "b" :: []) 7).get "a").2.set "c" 7).cache)
      = none ∧
    ((emptyCache ℕ 3).set "x" 7).cache.length ≤ 3 := by
  have h := tile_cache_lru ℕ
  have h2 := h.2.1 2 7 "k0" ["k1"] "k2" (by decide) rfl
  have h3 := h.2.2 2 7 "a" "b" [] "c" (by decide) (by decide) rfl
  exact ⟨h2.1, h2.2 "k1" (by decide), h3.1, h3.2.1,
    h.1 (emptyCache ℕ 3) "x" 7 (by decide)⟩

/-! ### Orchestrator loop lemmas -/

theorem escTriggered_zero (esc : Option ℕ) : escTriggered esc 0 = false := by
  cases esc with
  | none => rfl
  | some k =>
    cases k with
    | zero => rfl
    | succ m => simp [escTriggered]

theorem escTriggered_le (k n : ℕ) (h : escTriggered (some k) n = true) : k ≤ n := by
  simp only [escTriggered, Bool.and_eq_true, decide_eq_true_eq] at h
  exact h.2

theorem detect_fail_none (d : DetectorFn) (c : TileCache RFResult) (h : String)
    (u : Bool) (hfail : d h = .error ()) (hmiss : lookupKey h c.cache = none) :
    (detect_on_tile d c h u).1 = none := by
  cases u
  · simp [detect_on_tile, hfail]
  · simp [detect_on_tile, TileCache.get, hmiss, hfail]

theorem detect_no_cache (d : DetectorFn) (c : TileCache RFResult) (h : String) :
    detect_on_tile d c h false
      = (match d h with
         | .ok r => some r
         | .error _ => none, c) := by
  cases hd : d h <;> simp [detect_on_tile, hd]

theorem collectPreds_mem {r : Option RFResult} {f : Detection → GlobalDetection}
    {acc : List GlobalDetection} {g : GlobalDetection} (h : g ∈ collectPreds r f acc) :
    g ∈ acc ∨ ∃ ps, r = some (some ps) ∧ ∃ p ∈ ps, g = f p := by
  match r with
  | none => exact Or.inl h
  | some none => exact Or.inl h
  | some (some ps) =>
    rcases List.mem_append.mp h with h1 | h2
    · exact Or.inl h1
    · rcases List.mem_map.mp h2 with ⟨p, hp, he⟩
      exact Or.inr ⟨ps, rfl, p, hp, he.symm⟩

theorem orchGo_cons_of_fail (remapFn : Tile → Detection → GlobalDetection)
    (d : DetectorFn) (u : Bool) (esc : Option ℕ) (t : Tile) (rest : List Tile)
    (c : TileCache RFResult) (h1 : (detect_on_tile d c t.hash u).1 = none) :
    orchGo remapFn d u esc (t :: rest) c []
      = ((orchGo remapFn d u esc rest (detect_on_tile d c t.hash u).2 []).1,
         (orchGo remapFn d u esc rest (detect_on_tile d c t.hash u).2 []).2.1 + 1,
         (orchGo remapFn d u esc rest (detect_on_tile d c t.hash u).2 []).2.2) := by
  rw [orchGo]
  simp only [h1, collectPreds, List.length_nil, escTriggered_zero, Bool.false_eq_true,
    if_false]

theorem orchGo_mem (remapFn : Tile → Detection → GlobalDetection) (d : DetectorFn)
    (u : Bool) (esc : Option ℕ) :
    ∀ (ts : List Tile) (c : TileCache RFResult) (acc : List GlobalDetection)
      (g : GlobalDetection), g ∈ (orchGo remapFn d u esc ts c acc).1 →
      g ∈ acc ∨ ∃ t ∈ ts, ∃ p : Detection, g = remapFn t p := by
  intro ts
  induction ts with
  | nil =>
    intro c acc g h
    exact Or.inl (by simpa [orchGo] using h)
  | cons t rest ih =>
    intro c acc g h
    rw [orchGo] at h
    by_cases hesc : escTriggered esc
        (collectPreds (detect_on_tile d c t.hash u).1 (remapFn t) acc).length = true
    · simp only [hesc, if_true] at h
      rcases collectPreds_mem h with h1 | ⟨ps, _, p, _, he⟩
      · exact Or.inl h1
      · exact Or.inr ⟨t, List.mem_cons_self t rest, p, he⟩
    · simp only [Bool.not_eq_true] at hesc
      simp only [hesc, Bool.false_eq_true, if_false] at h
      rcases ih _ _ g h with h1 | ⟨t', ht', p, he⟩
      · rcases collectPreds_mem h1 with h2 | ⟨ps, _, p, _, he⟩
        · exact Or.inl h2
        · exact Or.inr ⟨t, List.mem_cons_self t rest, p, he⟩
      · exact Or.inr ⟨t', List.mem_cons_of_mem t ht', p, he⟩

theorem orchGo_mem_no_cache (remapFn : Tile → Detection → GlobalDetection)
    (d : DetectorFn) (esc : Option ℕ) :
    ∀ (ts : List Tile) (c : TileCache RFResult) (acc : List GlobalDetection)
      (g : GlobalDetection), g ∈ (orchGo remapFn d false esc ts c acc).1 →
      g ∈ acc ∨ ∃ t ∈ ts, ∃ ps, d t.hash = .ok (some ps) ∧ ∃ p ∈ ps, g = remapFn t p := by
  intro ts
  induction ts with
  | nil =>
    intro c acc g h
    exact Or.inl (by simpa [orchGo] using h)
  | cons t rest ih =>
    intro c acc g h
    rw [orchGo] at h
    have hstep : ∀ (h1 : g ∈ collectPreds (detect_on_tile d c t.hash false).1
        (remapFn t) acc),
        g ∈ acc ∨ ∃ t' ∈ t :: rest, ∃ ps, d t'.hash = .ok (some ps) ∧
          ∃ p ∈ ps, g = remapFn t' p := by
      intro h1
      rcases collectPreds_mem h1 with h2 | ⟨ps, hr, p, hp, he⟩
      · exact Or.inl h2
      · rw [detect_no_cache] at hr
        cases hd : d t.hash with
        | ok r =>
          rw [hd] at hr
          simp only [Option.some.injEq] at hr
          exact Or.inr ⟨t, List.mem_cons_self t rest, ps, by rw [hd, hr], p, hp, he⟩
        | error e =>
          rw [hd] at hr
          exact absurd hr (by simp)
    by_cases hesc : escTriggered esc
        (collectPreds (detect_on_tile d c t.hash false).1 (remapFn t) acc).length = true
    · simp only [hesc, if_true] at h
      exact hstep h
    · simp only [Bool.not_eq_true] at hesc
      simp only [hesc, Bool.false_eq_true, if_false] at h
      rcases ih _ _ g h with h1 | ⟨t', ht', ps, hok, p, hp, he⟩
      · exact hstep h1
      · exact Or.inr ⟨t', List.mem_cons_of_mem t ht', ps, hok, p, hp, he⟩

theorem orchGo_stopped_found (remapFn : Tile → Detection → GlobalDetection)
    (d : DetectorFn) (u : Bool) (k : ℕ) :
    ∀ (ts : List Tile) (c : TileCache RFResult) (acc : List GlobalDetection),
      (orchGo remapFn d u (some k) ts c acc).2.2.1 = true →
      k ≤ (orchGo remapFn d u (some k) ts c acc).1.length := by
  intro ts
  induction ts with
  | nil =>
    intro c acc h
    simp [orchGo] at h
  | cons t rest ih =>
    intro c acc h
    rw [orchGo] at h ⊢
    by_cases hesc : escTriggered (some k)
        (collectPreds (detect_on_tile d c t.hash u).1 (remapFn t) acc).length = true
    · simp only [hesc, if_true] at h ⊢
      exact escTriggered_le _ _ hesc
    · simp only [Bool.not_eq_true] at hesc
      simp only [hesc, Bool.false_eq_true, if_false] at h ⊢
      exact ih _ _ h

theorem orchGo_processed (remapFn : Tile → Detection → GlobalDetection)
    (d : DetectorFn) (u : Bool) (esc : Option ℕ) :
    ∀ (ts : List Tile) (c : TileCache RFResult) (acc : List GlobalDetection),
      (orchGo remapFn d u esc ts c acc).2.1 ≤ ts.length ∧
      ((orchGo remapFn d u esc ts c acc).2.2.1 = false →
        (orchGo remapFn d u esc ts c acc).2.1 = ts.length) := by
  intro ts
  induction ts with
  | nil =>
    intro c acc
    simp [orchGo]
  | cons t rest ih =>
    intro c acc
    rw [orchGo]
    by_cases hesc : escTriggered esc
        (collectPreds (detect_on_tile d c t.hash u).1 (remapFn t) acc).length = true
    · simp only [hesc, if_true, List.length_cons]
      exact ⟨Nat.succ_le_succ (Nat.zero_le _), fun h => absurd h (by simp)⟩
    · simp only [Bool.not_eq_true] at hesc
      simp only [hesc, Bool.false_eq_true, if_false, List.length_cons]
      have h1 := ih (detect_on_tile d c t.hash u).2
        (collectPreds (detect_on_tile d c t.hash u).1 (remapFn t) acc)
      exact ⟨Nat.succ_le_succ h1.1, fun h => by rw [h1.2 h]⟩

theorem orchGo_take (remapFn : Tile → Detection → GlobalDetection)
    (d : DetectorFn) (u : Bool) (esc : Option ℕ) :
    ∀ (ts : List Tile) (c : TileCache RFResult) (acc : List GlobalDetection),
      orchGo remapFn d u esc (ts.take ((orchGo remapFn d u esc ts c acc).2.1)) c acc
        = orchGo remapFn d u esc ts c acc := by
  intro ts
  induction ts with
  | nil =>
    intro c acc
    rfl
  | cons t rest ih =>
    intro c acc
    conv_lhs => rw [orchGo]
    conv_rhs => rw [orchGo]
    by_cases hesc : escTriggered esc
        (collectPreds (detect_on_tile d c t.hash u).1 (remapFn t) acc).length = true
    · simp only [hesc, if_true]
      rw [List.take_succ_cons, List.take_zero, orchGo]
      simp only [hesc, if_true]
    · simp only [Bool.not_eq_true] at hesc
      simp only [hesc, Bool.false_eq_true, if_false]
      rw [List.take_succ_cons, orchGo]
      simp only [hesc, Bool.false_eq_true, if_false]
      rw [ih]

/-! ### C6 — a per-tile failure never aborts the page -/

/-- C6: when the detector call for the first tile raises (and its fingerprint
is not already cached), `detect_on_tile` returns `None`, the tile contributes
zero detections, and the sequential orchestrator still processes the
remaining tiles, returning the same aggregated detection list, early-stop
flag and objects-found count as a run over the remaining tiles alone, with
one more tile counted as processed. -/
theorem sequential_survives_tile_failure (d : DetectorFn) (c : TileCache RFResult)
    (t : Tile) (rest : List Tile) (u : Bool) (esc : Option ℕ)
    (hfail : d t.hash = .error ()) (hmiss : lookupKey t.hash c.cache = none) :
    (detect_on_tile d c t.hash u).1 = none ∧
    (process_all_tiles_sequential d c (t :: rest) u esc).1
      = (process_all_tiles_sequential d (detect_on_tile d c t.hash u).2 rest u esc).1 ∧
    (process_all_tiles_sequential d c (t :: rest) u esc).2.1.processed
      = (process_all_tiles_sequential d (detect_on_tile d c t.hash u).2 rest u esc).2.1.processed
        + 1 ∧
    (process_all_tiles_sequential d c (t :: rest) u esc).2.1.earlyStopped
      = (process_all_tiles_sequential d (detect_on_tile d c t.hash u).2 rest u esc).2.1.earlyStopped ∧
    (process_all_tiles_sequential d c (t :: rest) u esc).2.1.objectsFound
      = (process_all_tiles_sequential d (detect_on_tile d c t.hash u).2 rest u esc).2.1.objectsFound := by
  have h1 : (detect_on_tile d c t.hash u).1 = none :=
    detect_fail_none d c t.hash u hfail hmiss
  have h2 := orchGo_cons_of_fail remapSeq d u esc t rest c h1
  refine ⟨h1, ?_, ?_, ?_, ?_⟩ <;>
    simp only [process_all_tiles_sequential, seqGo, h2]

theorem sequential_survives_tile_failure_witness :
    (detect_on_tile detFail (emptyCache RFResult 10) tileA.hash false).1 = none ∧
    (process_all_tiles_sequential detFail (emptyCache RFResult 10) [tileA] false none).1
      = (process_all_tiles_sequential detFail
          (detect_on_tile detFail (emptyCache RFResult 10) tileA.hash false).2
          [] false none).1 :=
  ⟨(sequential_survives_tile_failure detFail (emptyCache RFResult 10) tileA [] false none
      rfl rfl).1,
   (sequential_survives_tile_failure detFail (emptyCache RFResult 10) tileA [] false none
      rfl rfl).2.1⟩

/-! ### C8 — sequential early stopping -/

/-- C8: with a positive `early_stop_count = k`, once the accumulated
detections reach `k` the sequential loop breaks: an early-stopped run reports
`objects_found ≥ k`; `processed` never exceeds the number of supplied tiles
and equals it exactly when no early stop happened; and the whole run result
equals the run over only the first `processed` tiles — no further tile is
processed after the stop. -/
theorem sequential_early_stop (d : DetectorFn) (c : TileCache RFResult)
    (tiles : List Tile) (u : Bool) (k : ℕ) (hk : 1 ≤ k) :
    ((process_all_tiles_sequential d c tiles u (some k)).2.1.earlyStopped = true →
      k ≤ (process_all_tiles_sequential d c tiles u (some k)).2.1.objectsFound) ∧
    (process_all_tiles_sequential d c tiles u (some k)).2.1.processed ≤ tiles.length ∧
    ((process_all_tiles_sequential d c tiles u (some k)).2.1.earlyStopped = false →
      (process_all_tiles_sequential d c tiles u (some k)).2.1.processed = tiles.length) ∧
    process_all_tiles_sequential d c
        (tiles.take ((process_all_tiles_sequential d c tiles u (some k)).2.1.processed))
        u (some k)
      = process_all_tiles_sequential d c tiles u (some k) := by
  refine ⟨fun h => ?_, ?_, fun h => ?_, ?_⟩
  · exact orchGo_stopped_found remapSeq d u k tiles c [] h
  · exact (orchGo_processed remapSeq d u (some k) tiles c []).1
  · exact (orchGo_processed remapSeq d u (some k) tiles c []).2 h
  · simp only [process_all_tiles_sequential, seqGo]
    rw [orchGo_take]

theorem sequential_early_stop_witness :
    1 ≤ (process_all_tiles_sequential detOne (emptyCache RFResult 10) [tileA, tileA]
          false (some 1)).2.1.objectsFound ∧
    (process_all_tiles_sequential detOne (emptyCache RFResult 10) [tileA, tileA]
          false (some 1)).2.1.processed ≤ 2 :=
  ⟨(sequential_early_stop detOne (emptyCache RFResult 10) [tileA, tileA] false 1
      le_rfl).1 rfl,
   (sequential_early_stop detOne (emptyCache RFResult 10) [tileA, tileA] false 1
      le_rfl).2.1⟩

/-! ### C3 — coordinate remapping -/

/-- C3 counterexample: the parallel path does not leave width and height
unchanged.  For a single tile at offset `(100, 200)` whose detector
prediction is centred at `(5, 6)` with width `10` and height `12`,
`process_all_tiles_parallel` aggregates the detection with the correctly
remapped centre `(105, 206)` but with width and height rewritten to
`max(20, int(value * 1.0)) = 20 ≠ 10`. -/
theorem parallel_width_changed :
    (process_all_tiles_parallel detOne (emptyCache RFResult 10) [tileA] false none).1
      = [⟨105, 206, 20, 20, 0⟩] ∧ ((20 : ℚ) ≠ 10) := by
  have h1 : (process_all_tiles_parallel detOne (emptyCache RFResult 10) [tileA]
      false none).1 = [remapPar tileA ⟨5, 6, 10, 12⟩] := rfl
  have h2 : remapPar tileA ⟨5, 6, 10, 12⟩ = ⟨105, 206, 20, 20, 0⟩ := by
    simp only [remapPar, tileA, scaleFactor, pyInt, GlobalDetection.mk.injEq]
    norm_num
  exact ⟨by rw [h1, h2], by norm_num⟩

/-- C3 amended: with caching disabled (so every result is served by the
detector itself — with caching on, a hit returns an aliased, possibly
already-remapped dict, see the cache-aliasing analysis), every aggregated
page-global detection of the sequential path has centre exactly
`(cx + tx, cy + ty)` with width/height exactly as the detector returned
them; the parallel path remaps the centre identically but replaces width and
height by `max(20, int(value * scale_factor))`. -/
theorem remap_exactness_amended (d : DetectorFn) (c : TileCache RFResult)
    (tiles order : List Tile) (esc : Option ℕ) :
    (∀ g ∈ (process_all_tiles_sequential d c tiles false esc).1,
      ∃ t ∈ tiles, ∃ ps, d t.hash = .ok (some ps) ∧ ∃ p ∈ ps,
        g.x = p.x + t.x ∧ g.y = p.y + t.y ∧ g.width = p.width ∧
        g.height = p.height) ∧
    (∀ g ∈ (process_all_tiles_parallel d c order false esc).1,
      ∃ t ∈ order, ∃ ps, d t.hash = .ok (some ps) ∧ ∃ p ∈ ps,
        g.x = t.x + p.x ∧ g.y = t.y + p.y ∧
        g.width = ((max 20 (pyInt (p.width * scaleFactor)) : ℤ) : ℚ) ∧
        g.height = ((max 20 (pyInt (p.height * scaleFactor)) : ℤ) : ℚ)) := by
  constructor
  · intro g hg
    rcases orchGo_mem_no_cache remapSeq d esc tiles c [] g hg with
      h | ⟨t, ht, ps, hok, p, hp, he⟩
    · exact absurd h (List.not_mem_nil g)
    · exact ⟨t, ht, ps, hok, p, hp, by rw [he]; exact ⟨rfl, rfl, rfl, rfl⟩⟩
  · intro g hg
    rcases orchGo_mem_no_cache remapPar d esc order c [] g hg with
      h | ⟨t, ht, ps, hok, p, hp, he⟩
    · exact absurd h (List.not_mem_nil g)
    · exact ⟨t, ht, ps, hok, p, hp, by rw [he]; exact ⟨rfl, rfl, rfl, rfl⟩⟩

theorem remap_exactness_amended_witness :
    ∃ t ∈ [tileA], ∃ ps, detOne t.hash = .ok (some ps) ∧ ∃ p ∈ ps,
      (remapSeq tileA ⟨5, 6, 10, 12⟩).x = p.x + t.x ∧
      (remapSeq tileA ⟨5, 6, 10, 12⟩).y = p.y + t.y ∧
      (remapSeq tileA ⟨5, 6, 10, 12⟩).width = p.width ∧
      (remapSeq tileA ⟨5, 6, 10, 12⟩).height = p.height := by
  have hm : remapSeq tileA ⟨5, 6, 10, 12⟩
      ∈ (process_all_tiles_sequential detOne (emptyCache RFResult 10) [tileA]
          false none).1 := by
    rw [show (process_all_tiles_sequential detOne (emptyCache RFResult 10) [tileA]
        false none).1 = [remapSeq tileA ⟨5, 6, 10, 12⟩] from rfl]
    exact List.mem_singleton_self _
  exact (remap_exactness_amended detOne (emptyCache RFResult 10) [tileA] [] none).1 _ hm

/-! ### C9 — parallel minimum box size -/

/-- C9: every detection aggregated by the parallel path has an integer width
`≥ 20` and an integer height `≥ 20` (it is rewritten to
`max(20, int(value * 1.0))`), whereas the sequential path keeps width and
height exactly as the prediction carried them. -/
theorem parallel_min_box_size (d : DetectorFn) (c : TileCache RFResult)
    (order tiles : List Tile) (u : Bool) (esc : Option ℕ) :
    (∀ g ∈ (process_all_tiles_parallel d c order u esc).1,
      (∃ n : ℤ, g.width = (n : ℚ) ∧ 20 ≤ n) ∧
      (∃ m : ℤ, g.height = (m : ℚ) ∧ 20 ≤ m)) ∧
    (∀ g ∈ (process_all_tiles_sequential d c tiles u esc).1,
      ∃ t ∈ tiles, ∃ p : Detection, g = remapSeq t p ∧ g.width = p.width ∧
        g.height = p.height) := by
  constructor
  · intro g hg
    rcases orchGo_mem remapPar d u esc order c [] g hg with h | ⟨t, _, p, he⟩
    · exact absurd h (List.not_mem_nil g)
    · exact ⟨⟨max 20 (pyInt (p.width * scaleFactor)), by rw [he]; rfl,
          le_max_left _ _⟩,
        ⟨max 20 (pyInt (p.height * scaleFactor)), by rw [he]; rfl,
          le_max_left _ _⟩⟩
  · intro g hg
    rcases orchGo_mem remapSeq d u esc tiles c [] g hg with h | ⟨t, ht, p, he⟩
    · exact absurd h (List.not_mem_nil g)
    · exact ⟨t, ht, p, he, by rw [he]; rfl, by rw [he]; rfl⟩

theorem parallel_min_box_size_witness :
    (∃ n : ℤ, (remapPar tileA ⟨5, 6, 10, 12⟩).width = (n : ℚ) ∧ 20 ≤ n) ∧
    (∃ m : ℤ, (remapPar tileA ⟨5, 6, 10, 12⟩).height = (m : ℚ) ∧ 20 ≤ m) := by
  have hm : remapPar tileA ⟨5, 6, 10, 12⟩
      ∈ (process_all_tiles_parallel detOne (emptyCache RFResult 10) [tileA]
          false none).1 := by
    rw [show (process_all_tiles_parallel detOne (emptyCache RFResult 10) [tileA]
        false none).1 = [remapPar tileA ⟨5, 6, 10, 12⟩] from rfl]
    exact List.mem_singleton_self _
  exact (parallel_min_box_size detOne (emptyCache RFResult 10) [tileA] [] false none).1
    _ hm
